import Mathlib

/-!
Shallow embedding of the quizgen quiz engine (src/english.rs, src/lib.rs,
src/mcq.rs, src/main.rs) for checking the natural-language specification.

Randomness in the source (`shuffle`, `choose`, `random_range`) is made explicit:
every random operation takes an oracle argument (a shuffling function, an
index-picking function), and theorems quantify over all oracles satisfying the
properties the `rand` crate guarantees (a shuffle is a permutation; `choose`
returns `none` exactly on an empty sequence and otherwise an element of it).

Rust panics (`unwrap`, `expect`, `unimplemented!`) are modelled by a dedicated
`Outcome.crash` constructor carrying the panic message.
-/

namespace Quizgen

/-- The four `Choice` ordinals of `src/mcq.rs`. -/
inductive Choice where
  | A
  | B
  | C
  | D
deriving DecidableEq, Repr

/-- Embeds `impl TryFrom<usize> for Choice` (src/mcq.rs lines 33-45): `0..=3` map to
`A..=D`, anything else is an error. -/
def Choice.tryFrom (value : Nat) : Except String Choice :=
  match value with
  | 0 => Except.ok Choice.A
  | 1 => Except.ok Choice.B
  | 2 => Except.ok Choice.C
  | 3 => Except.ok Choice.D
  | _ => Except.error ("Invalid choice: " ++ toString value)

/-- Embeds `Mcq<N>` of the english quiz: a statement, the choice texts and the solution
ordinal.  The const-generic length `N` of the Rust choice array is carried by
theorems about `choices.length` instead of by the type. -/
structure Mcq where
  statement : String
  choices : List String
  solution : Choice
deriving DecidableEq, Repr

/-- Embeds `SynonymResponse` (src/english.rs lines 23-27). -/
structure SynonymResponse where
  word : String
  synonyms : List String
deriving DecidableEq, Repr

/-- Embeds `ExampleResponse` (src/english.rs lines 35-39). -/
structure ExampleResponse where
  word : String
  examples : List String
deriving DecidableEq, Repr

/-- Embeds `DefinitionResponse` (src/english.rs lines 17-21). -/
structure DefinitionResponse where
  word : String
  definitions : List String
deriving DecidableEq, Repr

/-- Embeds `Details` (src/english.rs lines 41-47). -/
inductive Details where
  | Definitions
  | Synonyms
  | Antonyms
  | Examples
deriving DecidableEq, Repr

/-- Embeds `EnglishQuizError` (src/english.rs lines 7-15).  The opaque
`anyhow::Error` payload of `ApiError` is a type parameter `ε`; the
`std::io::Error` payload of `FileError` is modelled as a message string. -/
inductive EnglishQuizError (ε : Type) where
  | ApiError (e : ε)
  | DataError
  | FileError (msg : String)
deriving DecidableEq

/-- Result of running a piece of Rust code that may return `Ok`, return an
`EnglishQuizError`, or panic (with the panic message). -/
inductive Outcome (ε α : Type) where
  | ok (a : α)
  | err (e : EnglishQuizError ε)
  | crash (msg : String)
deriving DecidableEq

variable {ε α : Type}

/-- Loop body of `EnglishQuiz::try_get` (src/english.rs lines 136-148): walk the
provider call results in order, returning the first success; `last` is the
`last_err` accumulator.  The final `last_err.unwrap()` panics when no provider
was called at all; that panic is modelled by returning `none`. -/
def try_get_go (last : Option ε) : List (Except ε α) → Option (Except (EnglishQuizError ε) α)
  | [] =>
    match last with
    | some e => some (Except.error (EnglishQuizError.ApiError e))
    | none => none
  | Except.ok t :: _ => some (Except.ok t)
  | Except.error e :: rest => try_get_go (some e) rest

/-- Embeds `EnglishQuiz::try_get` (src/english.rs lines 136-148).  The providers are
represented by the list of the results of calling `f` on each of them, in the
array order. -/
def try_get (calls : List (Except ε α)) : Option (Except (EnglishQuizError ε) α) :=
  try_get_go none calls

/-- Embeds `str::to_lowercase`: lowercase the string character by character
(`Char.toLower` agrees with the Rust conversion on the ASCII range the quiz
data uses). -/
def rust_to_lowercase (s : String) : String :=
  ⟨s.data.map Char.toLower⟩

/-- Embeds `Iterator::position`: index of the first element satisfying `p`. -/
def position (p : α → Bool) : List α → Option Nat
  | [] => none
  | x :: xs => if p x then some 0 else (position p xs).map (fun n => n + 1)

/-- Embeds `EnglishQuiz::generate_choices` (src/english.rs lines 112-134): filter out
case-insensitive self-matches, shuffle, take `N - 1`, append the target word
(`try_into` fails with `DataError` unless exactly `N` texts result), then
shuffle once more.  The two in-place `shuffle` calls are the oracles
`shuffle1` and `shuffle2`. -/
def generate_choices (N : Nat) (word : String) (resp : SynonymResponse)
    (shuffle1 shuffle2 : List String → List String) :
    Except (EnglishQuizError ε) (List String) :=
  let synonyms := resp.synonyms.filter (fun s => rust_to_lowercase s != rust_to_lowercase word)
  let shuffled := shuffle1 synonyms
  let pre := shuffled.take (N - 1) ++ [word]
  if pre.length = N then Except.ok (shuffle2 pre) else Except.error EnglishQuizError.DataError

/-- The `statement` computation of `EnglishQuiz::generate_mcq`
(src/english.rs lines 153-184): fetch the configured attribute, run the
validity checks, pick one entry at random (`pickStmt` models
`random_range(0..len)`; `std::mem::take` of the entry at that index).
`Details::Antonyms` and `Details::Examples` hit `unimplemented!()`. -/
def mcq_statement (N : Nat) (kind : Details) (word : String) (synResp : SynonymResponse)
    (exCalls : List (Except ε ExampleResponse))
    (defCalls : List (Except ε DefinitionResponse))
    (pickStmt : Nat → Nat) : Outcome ε String :=
  match kind with
  | Details.Synonyms =>
    match try_get exCalls with
    | none => Outcome.crash "called Option::unwrap on a None value"
    | some (Except.error e) => Outcome.err e
    | some (Except.ok exResp) =>
      if exResp.examples.isEmpty
          || decide (synResp.synonyms.length < N - 1)
          || synResp.word != exResp.word
          || synResp.word != word
      then Outcome.err EnglishQuizError.DataError
      else Outcome.ok (exResp.examples.getD (pickStmt exResp.examples.length) "")
  | Details.Definitions =>
    match try_get defCalls with
    | none => Outcome.crash "called Option::unwrap on a None value"
    | some (Except.error e) => Outcome.err e
    | some (Except.ok defResp) =>
      if defResp.definitions.isEmpty
          || decide (synResp.synonyms.length < N - 1)
          || synResp.word != defResp.word
          || synResp.word != word
      then Outcome.err EnglishQuizError.DataError
      else Outcome.ok (defResp.definitions.getD (pickStmt defResp.definitions.length) "")
  | _ => Outcome.crash "not implemented"

/-- Tail of `EnglishQuiz::generate_mcq` (src/english.rs lines 186-193): find the
choice that case-insensitively equals the target word
(`.expect("Correct choice is present")`), convert its index to a `Choice`
(`.expect("Choice is valid")`), and build the question. -/
def mcq_from_choices (statement word : String) (choices : List String) : Outcome ε Mcq :=
  match position (fun c => rust_to_lowercase c == rust_to_lowercase word) choices with
  | none => Outcome.crash "Correct choice is present"
  | some correct_index =>
    match Choice.tryFrom correct_index with
    | Except.error _ => Outcome.crash "Choice is valid"
    | Except.ok solution => Outcome.ok ⟨statement, choices, solution⟩

/-- Embeds `EnglishQuiz::generate_mcq` (src/english.rs lines 150-194).  `synCalls`,
`exCalls` and `defCalls` are the results the providers give for
`get_synonyms`, `get_examples` and `get_definitions` on `word`. -/
def generate_mcq (N : Nat) (kind : Details) (word : String)
    (synCalls : List (Except ε SynonymResponse))
    (exCalls : List (Except ε ExampleResponse))
    (defCalls : List (Except ε DefinitionResponse))
    (pickStmt : Nat → Nat)
    (shuffle1 shuffle2 : List String → List String) : Outcome ε Mcq :=
  match try_get synCalls with
  | none => Outcome.crash "called Option::unwrap on a None value"
  | some (Except.error e) => Outcome.err e
  | some (Except.ok synResp) =>
    match mcq_statement N kind word synResp exCalls defCalls pickStmt with
    | Outcome.crash m => Outcome.crash m
    | Outcome.err e => Outcome.err e
    | Outcome.ok statement =>
      match generate_choices N word synResp shuffle1 shuffle2 with
      | Except.error e => Outcome.err e
      | Except.ok choices => mcq_from_choices statement word choices

/-- The word-pool part of the `EnglishQuiz` struct (src/english.rs lines
67-72): the word list and the parallel `selected` markers. -/
structure EnglishQuizState where
  words : List String
  selected : List Bool
deriving DecidableEq, Repr

/-- Embeds `str::lines`: split on newlines, the final line ending being optional.
(`\r` handling is immaterial here: the engine trims every line, and trimming
removes `\r`.) -/
def rustLines (s : String) : List String :=
  let parts := (s.data.splitOn '\n').map (fun l => (⟨l⟩ : String))
  if parts.getLast? = some "" then parts.dropLast else parts

/-- Embeds `str::trim` on the character list of a string: drop leading and trailing
whitespace. -/
def rustTrim (s : String) : String :=
  ⟨((s.data.dropWhile Char.isWhitespace).reverse.dropWhile Char.isWhitespace).reverse⟩

/-- The pure line-processing part of `EnglishQuiz::new` (src/english.rs lines
75-92) applied to the contents of the source file: every line is trimmed and
collected. -/
def quizWords (content : String) : List String :=
  (rustLines content).map rustTrim

/-- The freshly constructed pool state of `EnglishQuiz::new`
(src/english.rs lines 86-91): `selected = vec![false; words.len()]`. -/
def freshState (words : List String) : EnglishQuizState :=
  { words := words, selected := List.replicate words.length false }

/-- Embeds `EnglishQuiz::new` (src/english.rs lines 75-92), pure part: build the pool
from the file contents. -/
def english_new (content : String) : EnglishQuizState :=
  freshState (quizWords content)

/-- Embeds `EnglishQuiz::available_words` (src/english.rs lines 94-96). -/
def available_words (s : EnglishQuizState) : Nat :=
  (s.selected.filter (fun sel => !sel)).length

/-- The index list `selected.iter().enumerate().filter_map(...)` of
`EnglishQuiz::select_word` (src/english.rs lines 99-105). -/
def unselectedIndices (s : EnglishQuizState) : List Nat :=
  s.selected.enum.filterMap (fun p => if !p.2 then some p.1 else none)

/-- Embeds `EnglishQuiz::select_word` (src/english.rs lines 98-110).  `pick` models
`IteratorRandom::choose`: it returns `none` exactly on an empty candidate list
and otherwise one of its elements (see `PickValid`). -/
def select_word (pick : List Nat → Option Nat) (s : EnglishQuizState) :
    Except (EnglishQuizError ε) (String × EnglishQuizState) :=
  match pick (unselectedIndices s) with
  | none => Except.error EnglishQuizError.DataError
  | some index =>
    Except.ok (s.words.getD index "", { s with selected := s.selected.set index true })

/-- What the `rand` crate guarantees for `IteratorRandom::choose`: `none`
exactly on an empty sequence, otherwise an element of the sequence. -/
def PickValid (pick : List Nat → Option Nat) : Prop :=
  (∀ l, pick l = none ↔ l = []) ∧ ∀ l i, pick l = some i → i ∈ l

/-- What the `rand` crate guarantees for an in-place `shuffle`: the result is a
permutation of the input. -/
def IsShuffler (f : List String → List String) : Prop :=
  ∀ l, List.Perm (f l) l

/-- Calling `select_word` `n` times in sequence, collecting the returned words;
`none` if some call fails. -/
def select_run (pick : List Nat → Option Nat) :
    Nat → EnglishQuizState → Option (List String × EnglishQuizState)
  | 0, s => some ([], s)
  | Nat.succ n, s =>
    match select_word (ε := Unit) pick s with
    | Except.error _ => none
    | Except.ok (w, s') =>
      match select_run pick n s' with
      | none => none
      | some (ws, s'') => some (w :: ws, s'')

/-- The words of the pool at not-yet-selected positions. -/
def unselW (ws : List String) (sel : List Bool) : List String :=
  (ws.zip sel).filterMap (fun p => if p.2 then none else some p.1)

/-- A `f64` value as produced by the grading arithmetic: either NaN (from
`0.0 / 0.0`) or an exact rational.  `Section::grade` divides two small integer
counts; for the graded properties stated below (`100.0` on a full score, `0.0`
on a zero score, NaN on an empty section) the rational value coincides with
the IEEE double the Rust code computes. -/
inductive F64 where
  | nan
  | val (q : ℚ)
deriving DecidableEq

/-- An answered question (src/lib.rs lines 113-120 with `State =
Answered<T>`): its style and the `Option<T>` submission. -/
structure AnsweredQuestion (T S : Type) where
  style : S
  state : Option T

/-- An unanswered question: just its style. -/
structure UnansweredQuestion (S : Type) where
  style : S

/-- Embeds `Question::mark` (src/lib.rs lines 141-147): a submission counts correct
only if present and equal to the style's solution.  `solve` is the
`Solver::solve` implementation of the style type. -/
def mark {T S : Type} [DecidableEq T] (solve : S → T) (q : AnsweredQuestion T S) : Bool :=
  (q.state.map (fun a => decide (solve q.style = a))).getD false

/-- Embeds `Section::grade` (src/lib.rs lines 205-214):
`(correct count as f64 / question count as f64) * 100.0`.  When the section is
empty the correct count is necessarily `0` and `0.0 / 0.0` is NaN; otherwise
the quotient of the two exactly-represented small integers is modelled as a
rational. -/
def grade {T S : Type} [DecidableEq T] (solve : S → T) (qs : List (AnsweredQuestion T S)) : F64 :=
  if qs.length = 0 then F64.nan
  else F64.val (((((qs.map (mark solve)).filter (fun m => m)).length : ℚ) / (qs.length : ℚ)) * 100)

/-- Embeds `Vec::resize_with(n, || None)`: truncate to `n` or pad with `none` up to
`n`. -/
def resize_with_none {T : Type} (l : List (Option T)) (n : Nat) : List (Option T) :=
  l.take n ++ List.replicate (n - l.length) none

/-- Embeds `Section::answer` (src/lib.rs lines 188-201): wrap each submission in
`Some`, resize to the question count (truncating excess, padding missing with
`None`), and pair questions with submissions by position. -/
def section_answer {T S : Type} (qs : List (UnansweredQuestion S)) (answers : List T) :
    List (AnsweredQuestion T S) :=
  let resized := resize_with_none (answers.map some) qs.length
  (qs.zip resized).map (fun p => ⟨p.1.style, p.2⟩)

/-- Embeds `load_questions` (src/main.rs lines 73-91), pure part: zip the persisted
questions with the persisted `(expected, submitted-or-none)` pairs and keep a
question exactly when `a2.as_ref().filter(|&a2| a2 != &a1).map(|_| q)` is
`Some`. -/
def load_questions {Q A : Type} [DecidableEq A] (qs : List Q) (answers : List (A × Option A)) :
    List Q :=
  (qs.zip answers).filterMap
    (fun p => (Option.filter (fun a2 => a2 != p.2.1) p.2.2).map (fun _ => p.1))

/-! ## Lemmas about the provider chain -/

theorem try_get_go_skips_errors (pre : List (Except ε α)) (t : α) (rest : List (Except ε α)) :
    ∀ last, (∀ c ∈ pre, ∃ e, c = Except.error e) →
      try_get_go last (pre ++ Except.ok t :: rest) = some (Except.ok t) := by
  induction pre with
  | nil => intro last _; rfl
  | cons c cs ih =>
    intro last hall
    obtain ⟨e, rfl⟩ := hall c (List.mem_cons_self ..)
    simp only [List.cons_append, try_get_go]
    exact ih _ (fun c hc => hall c (List.mem_cons_of_mem _ hc))

theorem try_get_go_all_errors :
    ∀ (es : List ε) (e : ε), es.getLast? = some e →
      ∀ last, try_get_go (α := α) last (es.map Except.error) =
        some (Except.error (EnglishQuizError.ApiError e)) := by
  intro es
  induction es with
  | nil => intro e h; simp at h
  | cons x xs ih =>
    intro e h last
    cases xs with
    | nil =>
      simp only [List.getLast?_singleton, Option.some.injEq] at h
      subst h
      rfl
    | cons y ys =>
      rw [List.getLast?_cons_cons] at h
      simp only [List.map_cons, try_get_go]
      exact ih e h (some x)

theorem try_get_go_ok_mem :
    ∀ (calls : List (Except ε α)) (last : Option ε) (t : α),
      try_get_go last calls = some (Except.ok t) → Except.ok t ∈ calls := by
  intro calls
  induction calls with
  | nil =>
    intro last t h
    cases last <;> simp [try_get_go] at h
  | cons c cs ih =>
    intro last t h
    cases c with
    | ok x =>
      simp only [try_get_go, Option.some.injEq, Except.ok.injEq] at h
      subst h
      exact List.mem_cons_self ..
    | error e =>
      simp only [try_get_go] at h
      exact List.mem_cons_of_mem _ (ih _ _ h)

/-- C5: the provider chain tries providers in their configured order and
returns the first success; if every provider fails it returns an `ApiError`
wrapping the last underlying failure. -/
theorem try_get_first_success_else_last_error (calls : List (Except ε α)) :
    (∀ pre t rest, calls = pre ++ Except.ok t :: rest →
        (∀ c ∈ pre, ∃ e, c = Except.error e) →
        try_get calls = some (Except.ok t)) ∧
    (∀ (es : List ε) (e : ε), calls = es.map Except.error → es.getLast? = some e →
        try_get calls = some (Except.error (EnglishQuizError.ApiError e))) := by
  constructor
  · intro pre t rest hcalls hall
    subst hcalls
    exact try_get_go_skips_errors pre t rest none hall
  · intro es e hcalls hlast
    subst hcalls
    exact try_get_go_all_errors es e hlast none

/-- Witness for C5: with two providers the chain returns the second provider's
success after the first fails, and wraps the last error when both fail. -/
theorem try_get_first_success_else_last_error_witness :
    try_get [Except.error (0 : Nat), Except.ok (7 : Nat)] = some (Except.ok 7) ∧
    try_get (α := Nat) [Except.error (0 : Nat), Except.error 1] =
      some (Except.error (EnglishQuizError.ApiError 1)) :=
  ⟨(try_get_first_success_else_last_error _).1 [Except.error 0] 7 [] rfl
      (by intro c hc; rw [List.mem_singleton] at hc; exact ⟨0, hc⟩),
   (try_get_first_success_else_last_error _).2 [0, 1] 1 rfl rfl⟩

/-! ## Lemmas about choice generation -/

theorem position_of_countP_pos {p : α → Bool} {l : List α} (h : 0 < l.countP p) :
    ∃ i, position p l = some i ∧ i < l.length := by
  induction l with
  | nil => simp [List.countP_nil] at h
  | cons x xs ih =>
    by_cases hx : p x
    · exact ⟨0, by simp [position, hx], by simp⟩
    · rw [List.countP_cons, if_neg (by simp [hx])] at h
      obtain ⟨i, hi, hlt⟩ := ih (by omega)
      refine ⟨i + 1, by simp [position, hx, hi], by simp; omega⟩

theorem generate_choices_ok {N : Nat} {word : String} {resp : SynonymResponse}
    {sh1 sh2 : List String → List String} {choices : List String}
    (h1 : IsShuffler sh1) (h2 : IsShuffler sh2)
    (h : generate_choices (ε := ε) N word resp sh1 sh2 = Except.ok choices) :
    choices.length = N ∧
    choices.countP (fun c => rust_to_lowercase c == rust_to_lowercase word) = 1 ∧
    (resp.synonyms.Nodup → choices.Nodup) ∧
    (∀ c ∈ choices, c = word ∨
      c ∈ resp.synonyms.filter (fun s => rust_to_lowercase s != rust_to_lowercase word)) := by
  unfold generate_choices at h
  dsimp only at h
  set filtered := resp.synonyms.filter (fun s => rust_to_lowercase s != rust_to_lowercase word) with hf
  set pre := (sh1 filtered).take (N - 1) ++ [word] with hpre
  split at h
  case isFalse => exact absurd h (by simp)
  case isTrue hlen =>
    simp only [Except.ok.injEq] at h
    subst h
    have hperm2 : List.Perm (sh2 pre) pre := h2 pre
    have htake : List.Sublist ((sh1 filtered).take (N - 1)) (sh1 filtered) :=
      List.take_sublist _ _
    have hfilter0 : filtered.countP (fun c => rust_to_lowercase c == rust_to_lowercase word) = 0 := by
      rw [List.countP_eq_zero]
      intro a ha
      have := (List.mem_filter.mp (hf ▸ ha)).2
      simpa using this
    have htake0 : ((sh1 filtered).take (N - 1)).countP (fun c => rust_to_lowercase c == rust_to_lowercase word) = 0 := by
      have hle := List.Sublist.countP_le (p := fun c => rust_to_lowercase c == rust_to_lowercase word) htake
      rw [(h1 filtered).countP_eq, hfilter0] at hle
      omega
    refine ⟨hperm2.length_eq.trans hlen, ?_, ?_, ?_⟩
    · rw [hperm2.countP_eq, hpre, List.countP_append, htake0]
      simp
    · intro hnd
      have hndf : filtered.Nodup := hnd.filter _
      have hnds : (sh1 filtered).Nodup := ((h1 filtered).nodup_iff).mpr hndf
      have hndt : ((sh1 filtered).take (N - 1)).Nodup := htake.nodup hnds
      have hdisj : ∀ c ∈ (sh1 filtered).take (N - 1), c ≠ word := by
        intro c hc hcw
        have hcm : c ∈ filtered := (h1 filtered).mem_iff.mp (htake.mem hc)
        have := (List.mem_filter.mp (hf ▸ hcm)).2
        rw [hcw] at this
        simp at this
      refine ((hperm2.nodup_iff).mpr ?_)
      rw [hpre, List.nodup_append]
      exact ⟨hndt, List.nodup_singleton _, by
        intro c hc hc'
        rw [List.mem_singleton] at hc'
        exact hdisj c hc hc'⟩
    · intro c hc
      have hcp : c ∈ pre := hperm2.mem_iff.mp hc
      rw [hpre, List.mem_append, List.mem_singleton] at hcp
      rcases hcp with hcp | rfl
      · exact Or.inr ((h1 filtered).mem_iff.mp (htake.mem hcp))
      · exact Or.inl rfl

theorem generate_choices_err {N : Nat} {word : String} {resp : SynonymResponse}
    {sh1 sh2 : List String → List String} (h1 : IsShuffler sh1)
    (hfew : (resp.synonyms.filter (fun s => rust_to_lowercase s != rust_to_lowercase word)).length < N - 1) :
    generate_choices (ε := ε) N word resp sh1 sh2 = Except.error EnglishQuizError.DataError := by
  unfold generate_choices
  dsimp only
  have hperm := (h1 (resp.synonyms.filter (fun s => rust_to_lowercase s != rust_to_lowercase word))).length_eq
  rw [if_neg]
  simp only [List.length_append, List.length_take, List.length_singleton, hperm]
  omega

/-! ## Lemmas about question generation -/

theorem generate_mcq_ok_elim {N : Nat} {kind : Details} {word : String}
    {synCalls : List (Except ε SynonymResponse)}
    {exCalls : List (Except ε ExampleResponse)}
    {defCalls : List (Except ε DefinitionResponse)}
    {pickStmt : Nat → Nat} {sh1 sh2 : List String → List String} {q : Mcq}
    (h : generate_mcq N kind word synCalls exCalls defCalls pickStmt sh1 sh2 = Outcome.ok q) :
    ∃ synResp, try_get synCalls = some (Except.ok synResp) ∧
      generate_choices (ε := ε) N word synResp sh1 sh2 = Except.ok q.choices := by
  unfold generate_mcq at h
  cases hsyn : try_get (α := SynonymResponse) synCalls with
  | none => rw [hsyn] at h; exact absurd h (by simp)
  | some r =>
    rw [hsyn] at h
    cases r with
    | error e => exact absurd h (by simp)
    | ok synResp =>
      refine ⟨synResp, rfl, ?_⟩
      dsimp only at h
      cases hstmt : mcq_statement (ε := ε) N kind word synResp exCalls defCalls pickStmt with
      | crash m => rw [hstmt] at h; exact absurd h (by simp)
      | err e => rw [hstmt] at h; exact absurd h (by simp)
      | ok stmt =>
        rw [hstmt] at h
        dsimp only at h
        cases hch : generate_choices (ε := ε) N word synResp sh1 sh2 with
        | error e => rw [hch] at h; exact absurd h (by simp)
        | ok choices =>
          rw [hch] at h
          dsimp only at h
          unfold mcq_from_choices at h
          cases hpos : position (fun c => rust_to_lowercase c == rust_to_lowercase word) choices with
          | none => rw [hpos] at h; exact absurd h (by simp)
          | some i =>
            rw [hpos] at h
            dsimp only at h
            cases htf : Choice.tryFrom i with
            | error m => rw [htf] at h; exact absurd h (by simp)
            | ok sol =>
              rw [htf] at h
              simp only [Outcome.ok.injEq] at h
              subst h
              rfl

/-- C1 (amended): every question successfully returned by `generate_mcq` has
exactly `N` choices and exactly one choice that case-insensitively equals the
target word; the choice texts are moreover pairwise distinct whenever the
synonym entries delivered by the providers are pairwise distinct (the code
never deduplicates them). -/
theorem generate_mcq_choice_invariants {N : Nat} {kind : Details} {word : String}
    {synCalls : List (Except ε SynonymResponse)}
    {exCalls : List (Except ε ExampleResponse)}
    {defCalls : List (Except ε DefinitionResponse)}
    {pickStmt : Nat → Nat} {sh1 sh2 : List String → List String} {q : Mcq}
    (h1 : IsShuffler sh1) (h2 : IsShuffler sh2)
    (h : generate_mcq N kind word synCalls exCalls defCalls pickStmt sh1 sh2 = Outcome.ok q) :
    q.choices.length = N ∧
    q.choices.countP (fun c => rust_to_lowercase c == rust_to_lowercase word) = 1 ∧
    ((∀ r, Except.ok r ∈ synCalls → r.synonyms.Nodup) → q.choices.Nodup) := by
  obtain ⟨synResp, hsyn, hch⟩ := generate_mcq_ok_elim h
  obtain ⟨hl, hc, hnodup, -⟩ := generate_choices_ok h1 h2 hch
  exact ⟨hl, hc, fun hnd => hnodup (hnd _ (try_get_go_ok_mem _ _ _ hsyn))⟩

/-- Counterexample for C1 as stated: a synonym response with a duplicate entry
makes `generate_mcq` succeed with a choice list whose texts are not pairwise
distinct. -/
theorem generate_mcq_duplicate_choices_cex :
    generate_mcq (ε := Unit) 4 Details.Synonyms "cat"
        [Except.ok ⟨"cat", ["feline", "feline", "tom"]⟩]
        [Except.ok ⟨"cat", ["x"]⟩] [] (fun _ => 0) id id
      = Outcome.ok ⟨"x", ["feline", "feline", "tom", "cat"], Choice.D⟩ ∧
    ¬ List.Nodup ["feline", "feline", "tom", "cat"] :=
  ⟨by rfl, by decide⟩

/-- Witness for C1: a concrete successful generation with distinct synonym
entries satisfies all three invariants. -/
theorem generate_mcq_choice_invariants_witness :
    List.length ["feline", "kitty", "tom", "cat"] = 4 ∧
    List.countP (fun c => rust_to_lowercase c == rust_to_lowercase "cat") ["feline", "kitty", "tom", "cat"] = 1 ∧
    ((∀ r, Except.ok r ∈ ([Except.ok ⟨"cat", ["feline", "kitty", "tom"]⟩]
          : List (Except Unit SynonymResponse)) →
        r.synonyms.Nodup) → List.Nodup ["feline", "kitty", "tom", "cat"]) :=
  @generate_mcq_choice_invariants Unit 4 Details.Synonyms "cat"
    [Except.ok ⟨"cat", ["feline", "kitty", "tom"]⟩] [Except.ok ⟨"cat", ["x"]⟩] []
    (fun _ => 0) id id ⟨"x", ["feline", "kitty", "tom", "cat"], Choice.D⟩
    (fun l => List.Perm.refl l) (fun l => List.Perm.refl l) rfl

/-- Counterexample for C3 as stated: the untrimmed entry `" CAT "` is not a
case-insensitive match for `"cat"` (the filter never trims), so filtering
leaves 4 synonyms, not 3, and a legitimate shuffle can put `" CAT "` into the
choices, which then are not the claimed set. -/
theorem generate_choices_cat_untrimmed_cex :
    (["feline", "kitty", "tom", " CAT "].filter
        (fun s => rust_to_lowercase s != rust_to_lowercase "cat")).length = 4 ∧
    generate_choices (ε := Unit) 4 "cat" ⟨"cat", ["feline", "kitty", "tom", " CAT "]⟩
        List.reverse id = Except.ok [" CAT ", "tom", "kitty", "cat"] ∧
    "feline" ∉ [" CAT ", "tom", "kitty", "cat"] :=
  ⟨by decide, by rfl, by decide⟩

/-- C3 (amended): for word `"cat"` with synonym entries
`["feline","kitty","tom"," CAT "]` and `N = 4` the self-match filter removes
nothing (so 4 entries remain, not 3); any successful choice list consists of
`"cat"` plus three of those four entries, has exactly one choice that
case-insensitively equals `"cat"`, and has pairwise-distinct texts. -/
theorem generate_choices_cat_scenario {sh1 sh2 : List String → List String}
    {choices : List String} (h1 : IsShuffler sh1) (h2 : IsShuffler sh2)
    (h : generate_choices (ε := Unit) 4 "cat" ⟨"cat", ["feline", "kitty", "tom", " CAT "]⟩
        sh1 sh2 = Except.ok choices) :
    (["feline", "kitty", "tom", " CAT "].filter
        (fun s => rust_to_lowercase s != rust_to_lowercase "cat")) = ["feline", "kitty", "tom", " CAT "] ∧
    choices.length = 4 ∧
    choices.countP (fun c => rust_to_lowercase c == rust_to_lowercase "cat") = 1 ∧
    (∀ c ∈ choices, c = "cat" ∨ c ∈ ["feline", "kitty", "tom", " CAT "]) ∧
    choices.Nodup := by
  obtain ⟨hl, hcp, hnodup, hmem⟩ := generate_choices_ok h1 h2 h
  refine ⟨by decide, hl, hcp, ?_, hnodup (by decide)⟩
  intro c hc
  rcases hmem c hc with rfl | hcf
  · exact Or.inl rfl
  · exact Or.inr (List.mem_of_mem_filter hcf)

/-- Witness for C3 (amended): the identity shuffle yields
`["feline","kitty","tom","cat"]`. -/
theorem generate_choices_cat_scenario_witness :
    (["feline", "kitty", "tom", " CAT "].filter
        (fun s => rust_to_lowercase s != rust_to_lowercase "cat")) = ["feline", "kitty", "tom", " CAT "] ∧
    List.length ["feline", "kitty", "tom", "cat"] = 4 ∧
    List.countP (fun c => rust_to_lowercase c == rust_to_lowercase "cat") ["feline", "kitty", "tom", "cat"] = 1 ∧
    (∀ c ∈ ["feline", "kitty", "tom", "cat"], c = "cat" ∨
        c ∈ ["feline", "kitty", "tom", " CAT "]) ∧
    List.Nodup ["feline", "kitty", "tom", "cat"] :=
  @generate_choices_cat_scenario id id ["feline", "kitty", "tom", "cat"]
    (fun l => List.Perm.refl l) (fun l => List.Perm.refl l) rfl

/-- Counterexample for C4 as stated: with only one usable synonym (fewer than
`N - 1 = 3`) but a failing example lookup on every provider, `generate_mcq`
fails with `ApiError`, not `DataError`. -/
theorem generate_mcq_apierror_cex :
    generate_mcq (ε := Nat) 4 Details.Synonyms "cat"
        [Except.ok ⟨"cat", ["a"]⟩] [Except.error 0] [] (fun _ => 0) id id
      = Outcome.err (EnglishQuizError.ApiError 0) ∧
    EnglishQuizError.ApiError 0 ≠ (EnglishQuizError.DataError : EnglishQuizError Nat) :=
  ⟨by rfl, by decide⟩

/-- C4 (amended): if the synonym lookup succeeds but, after removing entries
that case-insensitively equal the target word, fewer than `N - 1` entries
remain, then `generate_mcq` fails with `DataError` — provided the
statement-attribute lookup also succeeds (when it fails on every provider the
result is an `ApiError` instead, as the counterexample shows). -/
theorem generate_mcq_insufficient_distractors {N : Nat} {word : String}
    {synResp : SynonymResponse}
    {synCalls : List (Except ε SynonymResponse)}
    {exCalls : List (Except ε ExampleResponse)}
    {defCalls : List (Except ε DefinitionResponse)}
    {pickStmt : Nat → Nat} {sh1 sh2 : List String → List String}
    (h1 : IsShuffler sh1)
    (hsyn : try_get synCalls = some (Except.ok synResp))
    (hfew : (synResp.synonyms.filter (fun s => rust_to_lowercase s != rust_to_lowercase word)).length < N - 1) :
    ((∃ exResp, try_get exCalls = some (Except.ok exResp)) →
        generate_mcq N Details.Synonyms word synCalls exCalls defCalls pickStmt sh1 sh2
          = Outcome.err EnglishQuizError.DataError) ∧
    ((∃ defResp, try_get defCalls = some (Except.ok defResp)) →
        generate_mcq N Details.Definitions word synCalls exCalls defCalls pickStmt sh1 sh2
          = Outcome.err EnglishQuizError.DataError) := by
  have hchoices : generate_choices (ε := ε) N word synResp sh1 sh2
      = Except.error EnglishQuizError.DataError := generate_choices_err h1 hfew
  constructor
  · rintro ⟨exResp, hex⟩
    unfold generate_mcq
    rw [hsyn]
    dsimp only
    unfold mcq_statement
    dsimp only
    rw [hex]
    dsimp only
    by_cases hcond : (exResp.examples.isEmpty
        || decide (synResp.synonyms.length < N - 1)
        || synResp.word != exResp.word
        || synResp.word != word) = true
    · rw [if_pos hcond]
    · rw [if_neg hcond]
      dsimp only
      rw [hchoices]
  · rintro ⟨defResp, hdef⟩
    unfold generate_mcq
    rw [hsyn]
    dsimp only
    unfold mcq_statement
    dsimp only
    rw [hdef]
    dsimp only
    by_cases hcond : (defResp.definitions.isEmpty
        || decide (synResp.synonyms.length < N - 1)
        || synResp.word != defResp.word
        || synResp.word != word) = true
    · rw [if_pos hcond]
    · rw [if_neg hcond]
      dsimp only
      rw [hchoices]

/-- Witness for C4 (amended): one usable synonym, successful example and
definition lookups, `N = 4`: both quiz kinds fail with `DataError`. -/
theorem generate_mcq_insufficient_distractors_witness :
    generate_mcq (ε := Unit) 4 Details.Synonyms "cat" [Except.ok ⟨"cat", ["a"]⟩]
        [Except.ok ⟨"cat", ["x"]⟩] [Except.ok ⟨"cat", ["d"]⟩] (fun _ => 0) id id
      = Outcome.err EnglishQuizError.DataError ∧
    generate_mcq (ε := Unit) 4 Details.Definitions "cat" [Except.ok ⟨"cat", ["a"]⟩]
        [Except.ok ⟨"cat", ["x"]⟩] [Except.ok ⟨"cat", ["d"]⟩] (fun _ => 0) id id
      = Outcome.err EnglishQuizError.DataError := by
  have h := @generate_mcq_insufficient_distractors Unit 4 "cat" ⟨"cat", ["a"]⟩
    [Except.ok ⟨"cat", ["a"]⟩] [Except.ok ⟨"cat", ["x"]⟩] [Except.ok ⟨"cat", ["d"]⟩]
    (fun _ => 0) id id
    (fun l => List.Perm.refl l) rfl (by decide)
  exact ⟨h.1 ⟨⟨"cat", ["x"]⟩, rfl⟩, h.2 ⟨⟨"cat", ["d"]⟩, rfl⟩⟩

theorem mcq_statement_crash {N : Nat} {kind : Details} {word : String}
    {synResp : SynonymResponse} {exCalls : List (Except ε ExampleResponse)}
    {defCalls : List (Except ε DefinitionResponse)} {pickStmt : Nat → Nat} {m : String}
    (h : mcq_statement N kind word synResp exCalls defCalls pickStmt = Outcome.crash m) :
    m = "called Option::unwrap on a None value" ∨ m = "not implemented" := by
  unfold mcq_statement at h
  cases kind with
  | Synonyms =>
    cases hex : try_get (α := ExampleResponse) exCalls with
    | none =>
      rw [hex] at h
      dsimp only at h
      injection h with h
      exact Or.inl h.symm
    | some r =>
      rw [hex] at h
      cases r with
      | error e => exact absurd h (by simp)
      | ok exResp =>
        dsimp only at h
        split at h <;> exact absurd h (by simp)
  | Definitions =>
    cases hdef : try_get (α := DefinitionResponse) defCalls with
    | none =>
      rw [hdef] at h
      dsimp only at h
      injection h with h
      exact Or.inl h.symm
    | some r =>
      rw [hdef] at h
      cases r with
      | error e => exact absurd h (by simp)
      | ok defResp =>
        dsimp only at h
        split at h <;> exact absurd h (by simp)
  | Antonyms =>
    dsimp only at h
    injection h with h
    exact Or.inr h.symm
  | Examples =>
    dsimp only at h
    injection h with h
    exact Or.inr h.symm

theorem generate_mcq_crash_classification {kind : Details} {word : String}
    {synCalls : List (Except ε SynonymResponse)}
    {exCalls : List (Except ε ExampleResponse)}
    {defCalls : List (Except ε DefinitionResponse)}
    {pickStmt : Nat → Nat} {sh1 sh2 : List String → List String} {m : String}
    (h1 : IsShuffler sh1) (h2 : IsShuffler sh2)
    (h : generate_mcq 4 kind word synCalls exCalls defCalls pickStmt sh1 sh2
        = Outcome.crash m) :
    m = "called Option::unwrap on a None value" ∨ m = "not implemented" := by
  unfold generate_mcq at h
  cases hsyn : try_get (α := SynonymResponse) synCalls with
  | none =>
    rw [hsyn] at h
    dsimp only at h
    injection h with h
    exact Or.inl h.symm
  | some r =>
    rw [hsyn] at h
    cases r with
    | error e => exact absurd h (by simp)
    | ok synResp =>
      dsimp only at h
      cases hstmt : mcq_statement (ε := ε) 4 kind word synResp exCalls defCalls pickStmt with
      | crash m' =>
        rw [hstmt] at h
        dsimp only at h
        injection h with h
        exact h ▸ mcq_statement_crash hstmt
      | err e => rw [hstmt] at h; exact absurd h (by simp)
      | ok stmt =>
        rw [hstmt] at h
        dsimp only at h
        cases hch : generate_choices (ε := ε) 4 word synResp sh1 sh2 with
        | error e => rw [hch] at h; exact absurd h (by simp)
        | ok choices =>
          rw [hch] at h
          dsimp only at h
          obtain ⟨hlen, hcount, -, -⟩ := generate_choices_ok h1 h2 hch
          obtain ⟨i, hpos, hlt⟩ := position_of_countP_pos
            (p := fun c => rust_to_lowercase c == rust_to_lowercase word) (l := choices)
            (by omega)
          rw [hlen] at hlt
          unfold mcq_from_choices at h
          rw [hpos] at h
          dsimp only at h
          have hok : ∃ c, Choice.tryFrom i = Except.ok c := by
            interval_cases i
            · exact ⟨Choice.A, rfl⟩
            · exact ⟨Choice.B, rfl⟩
            · exact ⟨Choice.C, rfl⟩
            · exact ⟨Choice.D, rfl⟩
          obtain ⟨c, hc⟩ := hok
          rw [hc] at h
          exact absurd h (by simp)

/-- C10: `Choice::try_from(usize)` succeeds precisely for `0..=3`, and for
`N = 4` the two `expect` calls of `generate_mcq` are unreachable: no input and
no legitimate shuffle outcome can make it panic with
`"Correct choice is present"` or `"Choice is valid"`, because a successful
choice list always contains the target word at an index below 4. -/
theorem choice_ordinals_and_expects_unreachable :
    (∀ n : Nat, (∃ c, Choice.tryFrom n = Except.ok c) ↔ n < 4) ∧
    (∀ (ε : Type) (kind : Details) (word : String)
        (synCalls : List (Except ε SynonymResponse))
        (exCalls : List (Except ε ExampleResponse))
        (defCalls : List (Except ε DefinitionResponse))
        (pickStmt : Nat → Nat) (sh1 sh2 : List String → List String),
        IsShuffler sh1 → IsShuffler sh2 →
        generate_mcq 4 kind word synCalls exCalls defCalls pickStmt sh1 sh2
            ≠ Outcome.crash "Correct choice is present" ∧
        generate_mcq 4 kind word synCalls exCalls defCalls pickStmt sh1 sh2
            ≠ Outcome.crash "Choice is valid") := by
  constructor
  · intro n
    constructor
    · rintro ⟨c, hc⟩
      rcases n with _ | _ | _ | _ | n
      · omega
      · omega
      · omega
      · omega
      · exact absurd hc (by simp [Choice.tryFrom])
    · intro hn
      interval_cases n
      · exact ⟨Choice.A, rfl⟩
      · exact ⟨Choice.B, rfl⟩
      · exact ⟨Choice.C, rfl⟩
      · exact ⟨Choice.D, rfl⟩
  · intro ε' kind word synCalls exCalls defCalls pickStmt sh1 sh2 h1 h2
    constructor <;> intro hcon <;>
      rcases generate_mcq_crash_classification h1 h2 hcon with h | h <;>
      exact absurd h (by decide)

/-- Witness for C10: the range equivalence at `n = 2` and the
no-expect-panic conclusion at a concrete input. -/
theorem choice_ordinals_and_expects_unreachable_witness :
    ((∃ c, Choice.tryFrom 2 = Except.ok c) ↔ 2 < 4) ∧
    (generate_mcq (ε := Unit) 4 Details.Synonyms "cat"
        [Except.ok ⟨"cat", ["feline", "kitty", "tom"]⟩] [Except.ok ⟨"cat", ["x"]⟩] []
        (fun _ => 0) id id ≠ Outcome.crash "Correct choice is present" ∧
     generate_mcq (ε := Unit) 4 Details.Synonyms "cat"
        [Except.ok ⟨"cat", ["feline", "kitty", "tom"]⟩] [Except.ok ⟨"cat", ["x"]⟩] []
        (fun _ => 0) id id ≠ Outcome.crash "Choice is valid") :=
  ⟨choice_ordinals_and_expects_unreachable.1 2,
   choice_ordinals_and_expects_unreachable.2 Unit Details.Synonyms "cat"
     [Except.ok ⟨"cat", ["feline", "kitty", "tom"]⟩] [Except.ok ⟨"cat", ["x"]⟩] []
     (fun _ => 0) id id (fun l => List.Perm.refl l) (fun l => List.Perm.refl l)⟩

/-! ## Lemmas about marking, grading, answering and carry-forward -/

theorem mark_eq_decide {T S : Type} [DecidableEq T] (solve : S → T) (q : AnsweredQuestion T S) :
    mark solve q = decide (q.state = some (solve q.style)) := by
  cases hs : q.state with
  | none => simp [mark, hs]
  | some a => simp [mark, hs, decide_eq_decide, eq_comm]

/-- Counterexample for C2 as stated: grading an empty answered section yields
NaN (`0.0 / 0.0`), not `0.0`. -/
theorem grade_empty_nan_cex :
    grade (T := Nat) (S := Nat) (fun s => s) [] = F64.nan ∧ F64.nan ≠ F64.val 0 :=
  ⟨rfl, fun hcon => F64.noConfusion hcon⟩

/-- C2 (amended): for a non-empty answered section, `grade` returns
`(correct / total) * 100` where a submission counts correct exactly when it is
present and equal to the expected solution; it returns `100.0` when every
submission matches and `0.0` when no submission is present.  For a section
with zero questions it returns NaN, not `0.0` (see the counterexample). -/
theorem grade_formula {T S : Type} [DecidableEq T] (solve : S → T)
    (qs : List (AnsweredQuestion T S)) (h : qs ≠ []) :
    grade solve qs = F64.val
      (((qs.countP (fun q => decide (q.state = some (solve q.style)))) : ℚ)
        / (qs.length : ℚ) * 100) ∧
    ((∀ q ∈ qs, q.state = some (solve q.style)) → grade solve qs = F64.val 100) ∧
    ((∀ q ∈ qs, q.state = none) → grade solve qs = F64.val 0) := by
  have hlen0 : qs.length ≠ 0 := fun hl => h (List.length_eq_zero.mp hl)
  have hcast : (qs.length : ℚ) ≠ 0 := Nat.cast_ne_zero.mpr hlen0
  have key : ((qs.map (mark solve)).filter (fun m => m)).length
      = qs.countP (fun q => decide (q.state = some (solve q.style))) := by
    rw [← List.countP_eq_length_filter, List.countP_map]
    exact List.countP_congr (fun q _ => by simp [mark_eq_decide])
  have hbase : grade solve qs = F64.val
      (((qs.countP (fun q => decide (q.state = some (solve q.style)))) : ℚ)
        / (qs.length : ℚ) * 100) := by
    unfold grade
    rw [if_neg hlen0, key]
  refine ⟨hbase, ?_, ?_⟩
  · intro hall
    have hcount : qs.countP (fun q => decide (q.state = some (solve q.style))) = qs.length :=
      List.countP_eq_length.mpr (fun q hq => by simp [hall q hq])
    rw [hbase, hcount, div_self hcast]
    norm_num
  · intro hnone
    have hcount : qs.countP (fun q => decide (q.state = some (solve q.style))) = 0 :=
      List.countP_eq_zero.mpr (fun q hq => by simp [hnone q hq])
    rw [hbase, hcount]
    norm_num

/-- Witness for C2 (amended): a two-question section where both submissions
match grades to `100.0`. -/
theorem grade_formula_witness :
    grade (T := Nat) (S := Nat) (fun s => s) [⟨0, some 0⟩, ⟨1, some 1⟩] = F64.val 100 :=
  (grade_formula (T := Nat) (S := Nat) (fun s => s) [⟨0, some 0⟩, ⟨1, some 1⟩]
      (List.cons_ne_nil _ _)).2.1
    (by intro q hq; fin_cases hq <;> rfl)

theorem load_questions_filter_eq {Q A : Type} [DecidableEq A] :
    ∀ (qs : List Q) (answers : List (A × Option A)),
      load_questions qs answers =
        ((qs.zip answers).filter (fun p =>
            match p.2.2 with
            | some a2 => decide (a2 ≠ p.2.1)
            | none => false)).map (fun p => p.1) := by
  intro qs
  induction qs with
  | nil => intro answers; rfl
  | cons q qs ih =>
    intro answers
    cases answers with
    | nil => rfl
    | cons a answers =>
      rcases a with ⟨a1, a2⟩
      have hih := ih answers
      simp only [load_questions, Option.filter, List.zip_cons_cons, List.filterMap_cons,
        List.filter_cons] at hih ⊢
      cases a2 with
      | none => simpa using hih
      | some x =>
        by_cases hx : x = a1
        · simpa [hx] using hih
        · simpa [hx] using hih

/-- C8: the carry-forward load keeps exactly the questions whose persisted
answer pair has a submitted answer that is present and different from the
expected answer, in their original order; never-answered questions (pair with
no submission) are excluded. -/
theorem load_questions_keeps_incorrect {Q A : Type} [DecidableEq A]
    (qs : List Q) (answers : List (A × Option A)) (h : qs.length = answers.length) :
    load_questions qs answers =
      ((qs.zip answers).filter (fun p =>
          match p.2.2 with
          | some a2 => decide (a2 ≠ p.2.1)
          | none => false)).map (fun p => p.1) :=
  load_questions_filter_eq qs answers

/-- Witness for C8: of three questions — answered wrong, answered right, never
answered — only the one answered wrong is kept. -/
theorem load_questions_keeps_incorrect_witness :
    load_questions ["q1", "q2", "q3"]
        [((0 : Nat), some 1), (0, some 0), (0, none)] =
      ((["q1", "q2", "q3"].zip [((0 : Nat), some 1), (0, some 0), (0, none)]).filter
          (fun p =>
            match p.2.2 with
            | some a2 => decide (a2 ≠ p.2.1)
            | none => false)).map (fun p => p.1) ∧
    load_questions ["q1", "q2", "q3"]
        [((0 : Nat), some 1), (0, some 0), (0, none)] = ["q1"] :=
  ⟨load_questions_keeps_incorrect ["q1", "q2", "q3"]
      [((0 : Nat), some 1), (0, some 0), (0, none)] rfl, by rfl⟩

/-- C9: when the submissions list is longer than the question list,
`Section::answer` silently discards the excess trailing submissions: the
result equals answering with the truncated list, question `i` is paired with
submission `i`, and the grade is unchanged. -/
theorem section_answer_discards_excess {T S : Type} [DecidableEq T] (solve : S → T)
    (qs : List (UnansweredQuestion S)) (answers : List T)
    (h : qs.length ≤ answers.length) :
    section_answer qs answers = section_answer qs (answers.take qs.length) ∧
    (section_answer qs answers).map (fun q => q.state) = (answers.take qs.length).map some ∧
    grade solve (section_answer qs answers)
      = grade solve (section_answer qs (answers.take qs.length)) := by
  have hres : resize_with_none (answers.map some) qs.length
      = (answers.map some).take qs.length := by
    unfold resize_with_none
    rw [List.length_map]
    rw [Nat.sub_eq_zero_of_le h]
    simp
  have hres' : resize_with_none ((answers.take qs.length).map some) qs.length
      = (answers.map some).take qs.length := by
    unfold resize_with_none
    rw [List.length_map, List.length_take]
    rw [Nat.min_eq_left h, Nat.sub_self]
    rw [← List.map_take, List.take_take, Nat.min_self]
    simp
  have heq : section_answer qs answers = section_answer qs (answers.take qs.length) := by
    unfold section_answer
    rw [hres, hres']
  have hlenres : ((answers.map some).take qs.length).length = qs.length := by
    rw [List.length_take, List.length_map]
    exact Nat.min_eq_left h
  refine ⟨heq, ?_, by rw [heq]⟩
  unfold section_answer
  rw [hres, List.map_map]
  have hsnd : (qs.zip ((answers.map some).take qs.length)).map
      (fun p => ((fun q => q.state) ∘ fun p => (⟨p.1.style, p.2⟩ : AnsweredQuestion T S)) p)
      = (qs.zip ((answers.map some).take qs.length)).map (fun p => p.2) := by
    exact List.map_congr_left (fun p _ => rfl)
  rw [hsnd, List.map_snd_zip _ _ (le_of_eq hlenres), ← List.map_take]

/-- Witness for C9: one question, two submissions — the second submission is
dropped and the grade is that of the truncated answering. -/
theorem section_answer_discards_excess_witness :
    section_answer (T := Nat) [⟨(10 : Nat)⟩] [0, 5]
      = section_answer [⟨(10 : Nat)⟩] ([0, 5].take 1) ∧
    (section_answer (T := Nat) [⟨(10 : Nat)⟩] [0, 5]).map (fun q => q.state)
      = ([0, 5].take 1).map some ∧
    grade (fun s => s) (section_answer (T := Nat) (S := Nat) [⟨10⟩] [0, 5])
      = grade (fun s => s) (section_answer [⟨10⟩] ([0, 5].take 1)) :=
  section_answer_discards_excess (fun s => s) [⟨10⟩] [0, 5] (by simp)

/-! ## Lemmas about the word pool -/

theorem unsel_len (sel : List Bool) :
    ∀ k : Nat, ((List.enumFrom k sel).filterMap
        (fun p => if !p.2 then some p.1 else none)).length
      = (sel.filter (fun b => !b)).length := by
  induction sel with
  | nil => intro k; rfl
  | cons b bs ih =>
    intro k
    cases b with
    | false => exact congrArg (· + 1) (ih (k + 1))
    | true => exact ih (k + 1)

theorem unsel_mem (sel : List Bool) :
    ∀ (k i : Nat), i ∈ (List.enumFrom k sel).filterMap
        (fun p => if !p.2 then some p.1 else none) →
      k ≤ i ∧ i - k < sel.length ∧ sel.getD (i - k) true = false := by
  induction sel with
  | nil => intro k i h; exact absurd h (List.not_mem_nil i)
  | cons b bs ih =>
    intro k i h
    cases b with
    | true =>
      obtain ⟨h1, h2, h3⟩ := ih (k + 1) i h
      have hik : i - k = (i - (k + 1)) + 1 := by omega
      refine ⟨by omega, by simp; omega, ?_⟩
      rw [hik, List.getD_cons_succ]
      exact h3
    | false =>
      rcases List.mem_cons.mp h with rfl | h
      · simp
      · obtain ⟨h1, h2, h3⟩ := ih (k + 1) i h
        have hik : i - k = (i - (k + 1)) + 1 := by omega
        refine ⟨by omega, by simp; omega, ?_⟩
        rw [hik, List.getD_cons_succ]
        exact h3

theorem unselW_len :
    ∀ (ws : List String) (sel : List Bool), ws.length = sel.length →
      (unselW ws sel).length = (sel.filter (fun b => !b)).length := by
  intro ws
  induction ws with
  | nil =>
    intro sel h
    cases sel with
    | nil => rfl
    | cons b bs => simp at h
  | cons w ws ih =>
    intro sel h
    cases sel with
    | nil => simp at h
    | cons b bs =>
      have h' : ws.length = bs.length := by simpa using h
      cases b with
      | false => simp [unselW, List.zip_cons_cons, List.filterMap_cons, List.filter_cons,
          ← ih bs h', unselW]
      | true => simp [unselW, List.zip_cons_cons, List.filterMap_cons, List.filter_cons,
          ← ih bs h', unselW]

theorem unselW_set :
    ∀ (ws : List String) (sel : List Bool) (i : Nat),
      ws.length = sel.length → i < sel.length → sel.getD i true = false →
      ∃ l1 l2, unselW ws sel = l1 ++ ws.getD i "" :: l2 ∧
        unselW ws (sel.set i true) = l1 ++ l2 := by
  intro ws
  induction ws with
  | nil =>
    intro sel i h hi hg
    cases sel with
    | nil => simp at hi
    | cons b bs => simp at h
  | cons w ws ih =>
    intro sel i h hi hg
    cases sel with
    | nil => simp at h
    | cons b bs =>
      cases i with
      | zero =>
        have hb : b = false := by simpa using hg
        subst hb
        refine ⟨[], unselW ws bs, ?_, ?_⟩
        · simp [unselW, List.zip_cons_cons, List.filterMap_cons]
        · simp [unselW, List.zip_cons_cons, List.filterMap_cons, List.set_cons_zero]
      | succ i =>
        have h' : ws.length = bs.length := by simpa using h
        have hi' : i < bs.length := by simpa using hi
        have hg' : bs.getD i true = false := by
          rw [List.getD_cons_succ] at hg
          exact hg
        obtain ⟨l1, l2, e1, e2⟩ := ih bs i h' hi' hg'
        cases b with
        | true =>
          refine ⟨l1, l2, ?_, ?_⟩
          · simpa [unselW, List.zip_cons_cons, List.filterMap_cons, List.getD_cons_succ] using e1
          · simpa [unselW, List.zip_cons_cons, List.filterMap_cons, List.set_cons_succ] using e2
        | false =>
          refine ⟨w :: l1, l2, ?_, ?_⟩
          · simpa [unselW, List.zip_cons_cons, List.filterMap_cons, List.getD_cons_succ] using e1
          · simpa [unselW, List.zip_cons_cons, List.filterMap_cons, List.set_cons_succ] using e2

theorem select_run_spec (pick : List Nat → Option Nat) (hp : PickValid pick) :
    ∀ (n : Nat) (s : EnglishQuizState), s.words.length = s.selected.length →
      n = available_words s →
      ∃ ws s', select_run pick n s = some (ws, s') ∧
        List.Perm ws (unselW s.words s.selected) ∧
        s'.words = s.words ∧ s'.words.length = s'.selected.length ∧
        available_words s' = 0 := by
  intro n
  induction n with
  | zero =>
    intro s hlen h0
    refine ⟨[], s, rfl, ?_, rfl, hlen, h0.symm⟩
    have hul := unselW_len s.words s.selected hlen
    have : unselW s.words s.selected = [] := by
      apply List.length_eq_zero.mp
      rw [hul]
      exact h0.symm
    rw [this]
  | succ n ih =>
    intro s hlen hn
    have hlen_idx : (unselectedIndices s).length = available_words s :=
      unsel_len s.selected 0
    have hne : unselectedIndices s ≠ [] := by
      intro hcon
      rw [hcon] at hlen_idx
      simp at hlen_idx
      omega
    obtain ⟨i, hpi⟩ : ∃ i, pick (unselectedIndices s) = some i := by
      cases hpi : pick (unselectedIndices s) with
      | none => exact absurd ((hp.1 _).mp hpi) hne
      | some i => exact ⟨i, rfl⟩
    have himem := hp.2 _ _ hpi
    obtain ⟨-, hilt, hifalse⟩ := unsel_mem s.selected 0 i himem
    rw [Nat.sub_zero] at hilt hifalse
    obtain ⟨l1, l2, e1, e2⟩ := unselW_set s.words s.selected i hlen hilt hifalse
    have hs1len : s.words.length = (s.selected.set i true).length := by simpa using hlen
    have havail1 : available_words ⟨s.words, s.selected.set i true⟩ = n := by
      have ha := unselW_len s.words (s.selected.set i true) hs1len
      have hb := unselW_len s.words s.selected hlen
      rw [e2] at ha
      rw [e1] at hb
      simp only [List.length_append, List.length_cons] at ha hb
      have hsv : available_words s = (s.selected.filter (fun b => !b)).length := rfl
      have hsv1 : available_words ⟨s.words, s.selected.set i true⟩
          = ((s.selected.set i true).filter (fun b => !b)).length := rfl
      omega
    obtain ⟨ws, s', hrun, hperm, hwords, hlen', havail'⟩ :=
      ih ⟨s.words, s.selected.set i true⟩ hs1len havail1.symm
    refine ⟨s.words.getD i "" :: ws, s', ?_, ?_, by rw [hwords], hlen', havail'⟩
    · simp only [select_run, select_word, hpi]
      rw [hrun]
    · rw [e1]
      have hperm2 : List.Perm ws (l1 ++ l2) := by
        rw [e2] at hperm
        exact hperm
      exact (List.Perm.cons _ hperm2).trans List.perm_middle.symm

theorem filter_not_replicate_false (n : Nat) :
    ((List.replicate n false).filter (fun b => !b)).length = n := by
  induction n with
  | zero => rfl
  | succ n ih => simp [List.replicate_succ, List.filter_cons, ih]

theorem unselW_replicate :
    ∀ ws : List String, unselW ws (List.replicate ws.length false) = ws := by
  intro ws
  induction ws with
  | nil => rfl
  | cons w ws ih =>
    simp only [List.length_cons, List.replicate_succ]
    simp [unselW, List.zip_cons_cons, List.filterMap_cons]
    exact ih

/-- C6: from a freshly constructed pool, `select_word` called once per pooled
word yields the pool's words exactly once each (the sequence of returned words
is a permutation of the pool), and the next call fails with the
pool-exhausted error (`DataError`). -/
theorem fresh_pool_without_replacement (pick : List Nat → Option Nat) (hp : PickValid pick)
    (words : List String) :
    ∃ ws s', select_run pick words.length (freshState words) = some (ws, s') ∧
      List.Perm ws words ∧
      select_word (ε := Unit) pick s' = Except.error EnglishQuizError.DataError := by
  have h1 : (freshState words).words.length = (freshState words).selected.length := by
    simp [freshState]
  have h2 : available_words (freshState words) = words.length := by
    unfold available_words freshState
    exact filter_not_replicate_false words.length
  have h3 : unselW (freshState words).words (freshState words).selected = words :=
    unselW_replicate words
  obtain ⟨ws, s', hrun, hperm, hw, hl, ha⟩ :=
    select_run_spec pick hp words.length (freshState words) h1 h2.symm
  refine ⟨ws, s', hrun, by rw [h3] at hperm; exact hperm, ?_⟩
  have hidx : (unselectedIndices s').length = available_words s' := unsel_len s'.selected 0
  have hempty : unselectedIndices s' = [] := by
    apply List.length_eq_zero.mp
    rw [hidx, ha]
  unfold select_word
  rw [hempty, (hp.1 []).mpr rfl]

/-- Witness for C6: the deterministic head-picking oracle on a two-word pool
returns both words, then fails with `DataError`. -/
theorem fresh_pool_without_replacement_witness :
    PickValid List.head? ∧
    (∃ ws s', select_run List.head? 2 (freshState ["cat", "dog"]) = some (ws, s') ∧
      List.Perm ws ["cat", "dog"] ∧
      select_word (ε := Unit) List.head? s' = Except.error EnglishQuizError.DataError) := by
  have hp : PickValid List.head? := by
    constructor
    · intro l
      cases l <;> simp
    · intro l i h
      cases l with
      | nil => simp at h
      | cons a l =>
        simp only [List.head?_cons, Option.some.injEq] at h
        rw [← h]
        exact List.mem_cons_self ..
  exact ⟨hp, fresh_pool_without_replacement List.head? hp ["cat", "dog"]⟩

/-! ## Lemmas about pool construction from the source file -/

theorem head?_dropWhile_false (p : α → Bool) :
    ∀ (l : List α) (c : α), (l.dropWhile p).head? = some c → p c = false := by
  intro l
  induction l with
  | nil => intro c h; exact Option.noConfusion h
  | cons x xs ih =>
    intro c h
    by_cases hp : p x
    · rw [List.dropWhile_cons, if_pos hp] at h
      exact ih c h
    · rw [List.dropWhile_cons, if_neg hp] at h
      simp only [List.head?_cons, Option.some.injEq] at h
      rw [← h]
      exact Bool.eq_false_iff.mpr hp

theorem getLast?_dropWhile (p : α → Bool) :
    ∀ l : List α, l.dropWhile p ≠ [] → (l.dropWhile p).getLast? = l.getLast? := by
  intro l
  induction l with
  | nil => intro h; exact absurd rfl h
  | cons x xs ih =>
    intro h
    by_cases hp : p x
    · rw [List.dropWhile_cons, if_pos hp] at h ⊢
      rw [ih h]
      have hxs : xs ≠ [] := by
        intro hcon
        rw [hcon] at h
        exact h rfl
      cases xs with
      | nil => exact absurd rfl hxs
      | cons y ys => rw [List.getLast?_cons_cons]
    · rw [List.dropWhile_cons, if_neg hp]

/-- Counterexample for C7 as stated: blank lines are NOT dropped — the pool
built from `"cat\n\ndog"` contains the empty word `""`. -/
theorem quizWords_blank_kept_cex :
    quizWords "cat\n\ndog" = ["cat", "", "dog"] ∧ "" ∈ quizWords "cat\n\ndog" := by
  constructor
  · rfl
  · rw [(by rfl : quizWords "cat\n\ndog" = ["cat", "", "dog"])]
    exact List.mem_cons_of_mem _ (List.mem_cons_self ..)

/-- C7 (amended): every word held in the pool is trimmed — it has no leading
and no trailing whitespace character — but blank input lines are kept as empty
words rather than dropped (see the counterexample). -/
theorem quizWords_trimmed (content : String) :
    ∀ w ∈ quizWords content,
      (w.data.head?.all (fun c => !c.isWhitespace)) = true ∧
      (w.data.getLast?.all (fun c => !c.isWhitespace)) = true := by
  intro w hw
  obtain ⟨v, -, rfl⟩ := List.mem_map.mp hw
  constructor
  · show ((((v.data.dropWhile Char.isWhitespace).reverse.dropWhile
        Char.isWhitespace).reverse.head?.all (fun c => !c.isWhitespace)) = true)
    cases hh : ((v.data.dropWhile Char.isWhitespace).reverse.dropWhile
        Char.isWhitespace).reverse.head? with
    | none => rfl
    | some c =>
      have hcw : c.isWhitespace = false := by
        rw [List.head?_reverse] at hh
        have hne : (v.data.dropWhile Char.isWhitespace).reverse.dropWhile
            Char.isWhitespace ≠ [] := by
          intro hcon
          rw [hcon] at hh
          exact Option.noConfusion hh
        rw [getLast?_dropWhile _ _ hne, List.getLast?_reverse] at hh
        exact head?_dropWhile_false _ _ _ hh
      simp [Option.all, hcw]
  · show ((((v.data.dropWhile Char.isWhitespace).reverse.dropWhile
        Char.isWhitespace).reverse.getLast?.all (fun c => !c.isWhitespace)) = true)
    cases hh : ((v.data.dropWhile Char.isWhitespace).reverse.dropWhile
        Char.isWhitespace).reverse.getLast? with
    | none => rfl
    | some c =>
      have hcw : c.isWhitespace = false := by
        rw [List.getLast?_reverse] at hh
        exact head?_dropWhile_false _ _ _ hh
      simp [Option.all, hcw]

/-- Witness for C7 (amended): the word `" cat  "` on a line of the source file
is held in the pool as `"cat"`, which starts and ends with non-whitespace. -/
theorem quizWords_trimmed_witness :
    "cat" ∈ quizWords " cat  \ndog" ∧
    (("cat" : String).data.head?.all (fun c => !c.isWhitespace)) = true ∧
    (("cat" : String).data.getLast?.all (fun c => !c.isWhitespace)) = true :=
  ⟨by rw [(by rfl : quizWords " cat  \ndog" = ["cat", "dog"])]; exact List.mem_cons_self ..,
   quizWords_trimmed " cat  \ndog" "cat"
     (by rw [(by rfl : quizWords " cat  \ndog" = ["cat", "dog"])]; exact List.mem_cons_self ..)⟩

end Quizgen
